import Mathlib

/-!
Verification development for the StoryWeaver voice-storyteller front-end.

The repository's session/audio core is shallowly embedded here:

* `GeminiService` models `src/services/geminiService.ts`: the base64
  transport codec (`encode` / `decode`, i.e. the composition of
  `String.fromCharCode`/`btoa` and `atob`/`charCodeAt`), the PCM encoder
  `createBlob` (scale by 32768, truncate to a 16-bit signed integer,
  little-endian packed, no clamping) and the PCM decoder `decodeAudioData`
  (reinterret bytes as 16-bit little-endian signed integers, de-interleave
  by channel, divide by 32768).
* `Storyteller` models `src/hooks/useStoryteller.ts`: the orchestrator
  state (status, conversation log, error message, resource refs, the two
  transcription accumulators, the playback cursor and the active playback
  set), `cleanup` / `stopSession`, the inbound-message handler
  `handleMessage`, and an event-step relation covering `startSession`,
  the session callbacks and playback-ended callbacks.

Bytes are modelled as `Nat` (with explicit `< 256` bounds where they
matter), sample values and clock times as `Rat`, strings as `String`, refs
holding browser objects as `Option` / `Bool` fields of one state record.
-/

namespace GeminiService

/-- The base64 alphabet, index 0..63, as `btoa` uses it. -/
def b64Alphabet : List Char :=
  "ABCDEFGHIJKLMNOPQRSTUVWXYZabcdefghijklmnopqrstuvwxyz0123456789+/".toList

/-- Character for a sextet value (the table lookup inside `btoa`). -/
def b64char (n : Nat) : Char := b64Alphabet.getD n 'A'

/-- Sextet value of a base64 character (the reverse table inside `atob`). -/
def b64index (c : Char) : Nat := b64Alphabet.findIdx (fun x => x = c)

/-- `encode` of geminiService.ts: bytes to base64 text.  It builds a binary
string with `String.fromCharCode` and applies `btoa`; the composition maps
each 3-byte group to 4 alphabet characters, a trailing 2-byte group to 3
characters plus `=`, and a trailing 1-byte group to 2 characters plus
`==`. -/
def encode : List Nat → List Char
  | [] => []
  | [a] => [b64char (a / 4), b64char (a % 4 * 16), '=', '=']
  | [a, b] => [b64char (a / 4), b64char (a % 4 * 16 + b / 16), b64char (b % 16 * 4), '=']
  | a :: b :: c :: rest =>
      b64char (a / 4) :: b64char (a % 4 * 16 + b / 16) ::
        b64char (b % 16 * 4 + c / 64) :: b64char (c % 64) :: encode rest

/-- `decode` of geminiService.ts: base64 text to bytes (`atob` followed by
`charCodeAt` into a byte array).  Groups of 4 characters yield 3 bytes; a
group padded with one or two `=` yields 2 or 1 bytes and ends the input. -/
def decode : List Char → List Nat
  | w :: x :: y :: z :: rest =>
      let b1 := b64index w * 4 + b64index x / 16
      if y = '=' then [b1]
      else
        let b2 := b64index x % 16 * 16 + b64index y / 4
        if z = '=' then [b1, b2]
        else b1 :: b2 :: (b64index y % 4 * 64 + b64index z) :: decode rest
  | _ => []

lemma b64index_b64char : ∀ n < 64, b64index (b64char n) = n := by decide

lemma b64char_ne_eq : ∀ n < 64, ¬ b64char n = '=' := by decide

/-- The transport round trip is exact: decoding the encoding of any byte
sequence returns the bytes unchanged. -/
lemma decode_encode (l : List Nat) (h : ∀ b ∈ l, b < 256) :
    decode (encode l) = l := by
  induction l using encode.induct with
  | case1 => simp [encode, decode]
  | case2 a =>
      have ha : a < 256 := h a (by simp)
      have h1 : a / 4 < 64 := by omega
      have h2 : a % 4 * 16 < 64 := by omega
      simp only [encode, decode, b64index_b64char _ h1, b64index_b64char _ h2, if_true,
        List.cons.injEq, and_true]
      omega
  | case3 a b =>
      have ha : a < 256 := h a (by simp)
      have hb : b < 256 := h b (by simp)
      have h1 : a / 4 < 64 := by omega
      have h2 : a % 4 * 16 + b / 16 < 64 := by omega
      have h3 : b % 16 * 4 < 64 := by omega
      simp only [encode, decode, b64index_b64char _ h1, b64index_b64char _ h2,
        b64index_b64char _ h3, if_neg (b64char_ne_eq _ h2), if_neg (b64char_ne_eq _ h3),
        if_true, List.cons.injEq, and_true]
      omega
  | case4 a b c rest ih =>
      have ha : a < 256 := h a (by simp)
      have hb : b < 256 := h b (by simp)
      have hc : c < 256 := h c (by simp)
      have h1 : a / 4 < 64 := by omega
      have h2 : a % 4 * 16 + b / 16 < 64 := by omega
      have h3 : b % 16 * 4 + c / 64 < 64 := by omega
      have h4 : c % 64 < 64 := by omega
      have hrest : ∀ x ∈ rest, x < 256 := fun x hx => h x (by simp [hx])
      simp only [encode, decode, b64index_b64char _ h1, b64index_b64char _ h2,
        b64index_b64char _ h3, b64index_b64char _ h4, if_neg (b64char_ne_eq _ h2),
        if_neg (b64char_ne_eq _ h3), if_neg (b64char_ne_eq _ h4), List.cons.injEq]
      exact ⟨by omega, by omega, by omega, ih hrest⟩

/-- Truncation toward zero: how JavaScript converts `data[i] * 32768` to an
integer when storing into an `Int16Array` element. -/
def truncToward (q : ℚ) : ℤ := if 0 ≤ q then ⌊q⌋ else ⌈q⌉

/-- The low 16 bits of an integer in two's complement: the bit pattern an
`Int16Array` element stores (wraparound, no clamping). -/
def toUint16 (n : ℤ) : ℕ := (n % 65536).toNat

/-- The two bytes of a 16-bit pattern in the array's underlying buffer,
little-endian. -/
def uint16LEBytes (p : ℕ) : List Nat := [p % 256, p / 256]

/-- The outbound audio chunk `createBlob` builds: base64 `data` plus the
fixed mime type. -/
structure BlobOut where
  data : List Char
  mimeType : String
deriving DecidableEq, Repr

/-- PCM bytes of one sample: scale by 32768, truncate to a 16-bit signed
integer, pack little-endian. -/
def sampleBytes (q : ℚ) : List Nat := uint16LEBytes (toUint16 (truncToward (q * 32768)))

/-- `createBlob` of geminiService.ts: scales each sample by 32768, truncates
into an `Int16Array`, and transport-encodes the little-endian bytes. -/
def createBlob (samples : List ℚ) : BlobOut :=
  { data := encode (samples.map sampleBytes).flatten
    mimeType := "audio/pcm;rate=16000" }

/-- Reading one `Int16Array` element back from its two little-endian bytes
(two's-complement sign interpretation). -/
def readInt16 (lo hi : Nat) : ℤ :=
  if lo + 256 * hi < 32768 then (lo + 256 * hi : ℤ) else (lo + 256 * hi : ℤ) - 65536

/-- `new Int16Array(data.buffer)`: bytes reinterpreted pairwise as 16-bit
little-endian signed integers. -/
def bytesToInt16 : List Nat → List ℤ
  | lo :: hi :: rest => readInt16 lo hi :: bytesToInt16 rest
  | _ => []

/-- Channel `channel` of `decodeAudioData` of geminiService.ts: reinterpret
the bytes as 16-bit integers, de-interleave by channel, normalize each
sample by dividing by 32768. -/
def decodeAudioData (bytes : List Nat) (numChannels channel : ℕ) : List ℚ :=
  let dataInt16 := bytesToInt16 bytes
  let frameCount := dataInt16.length / numChannels
  (List.range frameCount).map (fun i => ((dataInt16.getD (i * numChannels + channel) 0 : ℤ) : ℚ) / 32768)

/-- The duration of the buffer `decodeAudioData` produces:
`frameCount / sampleRate`. -/
def bufferDuration (bytes : List Nat) (sampleRate numChannels : ℕ) : ℚ :=
  ((bytesToInt16 bytes).length / numChannels : ℕ) / (sampleRate : ℚ)

lemma sampleBytes_lt (q : ℚ) : ∀ b ∈ sampleBytes q, b < 256 := by
  have h : toUint16 (truncToward (q * 32768)) < 65536 := by
    have := Int.emod_lt_of_pos (truncToward (q * 32768)) (b := 65536) (by norm_num)
    simp only [toUint16]
    omega
  simp only [sampleBytes, uint16LEBytes, List.mem_cons, List.mem_singleton]
  rintro b (rfl | rfl | h') <;> first | omega | cases h'

lemma bytesToInt16_join (l : List ℚ) :
    bytesToInt16 (l.map sampleBytes).flatten =
      l.map (fun q => readInt16 (toUint16 (truncToward (q * 32768)) % 256)
        (toUint16 (truncToward (q * 32768)) / 256)) := by
  induction l with
  | nil => rfl
  | cons q rest ih =>
      simp only [List.map_cons, List.flatten_cons, sampleBytes, uint16LEBytes,
        List.append_eq, List.cons_append, List.nil_append, bytesToInt16, ih]

lemma map_getD_range (l : List ℤ) (f : ℤ → ℚ) :
    (List.range l.length).map (fun i => f (l.getD i 0)) = l.map f := by
  induction l with
  | nil => rfl
  | cons n rest ih =>
      rw [List.length_cons, List.range_succ_eq_map, List.map_cons, List.map_map, List.map_cons]
      simp only [List.getD_cons_zero, Function.comp_def, List.getD_cons_succ]
      rw [ih]

lemma decodeAudioData_one_channel (bytes : List Nat) :
    decodeAudioData bytes 1 0 = (bytesToInt16 bytes).map (fun n : ℤ => (n : ℚ) / 32768) := by
  simp only [decodeAudioData, Nat.div_one, mul_one, Nat.add_zero]
  exact map_getD_range (bytesToInt16 bytes) (fun n : ℤ => (n : ℚ) / 32768)

/-- A truncated-toward-zero scaled sample stays within one unit of the
scaled value. -/
lemma truncToward_close (x : ℚ) : |x - truncToward x| < 1 := by
  unfold truncToward
  split
  · have h1 := Int.floor_le x
    have h2 := Int.lt_floor_add_one x
    rw [abs_sub_lt_iff]
    constructor <;> linarith
  · have h1 := Int.le_ceil x
    have h2 := Int.ceil_lt_add_one x
    rw [abs_sub_lt_iff]
    constructor <;> linarith

lemma truncToward_range (x : ℚ) (hlo : -32768 ≤ x) (hhi : x < 32768) :
    -32768 ≤ truncToward x ∧ truncToward x ≤ 32767 := by
  unfold truncToward
  split
  · rename_i hx
    have hge : (-32768 : ℤ) ≤ ⌊x⌋ := Int.le_floor.mpr (by exact_mod_cast hlo)
    have hlt : ⌊x⌋ < 32768 := Int.floor_lt.mpr (by exact_mod_cast hhi)
    omega
  · rename_i hx
    push_neg at hx
    have hle : ⌈x⌉ ≤ (0 : ℤ) := Int.ceil_le.mpr (by exact_mod_cast le_of_lt hx)
    have hge : (-32768 : ℚ) ≤ (⌈x⌉ : ℚ) := le_trans hlo (Int.le_ceil x)
    have hge' : (-32768 : ℤ) ≤ ⌈x⌉ := by exact_mod_cast hge
    omega

/-- Round-tripping one in-range sample through the 16-bit store-and-read
recovers exactly the truncated integer. -/
lemma readInt16_toUint16 (n : ℤ) (hlo : -32768 ≤ n) (hhi : n ≤ 32767) :
    readInt16 (toUint16 n % 256) (toUint16 n / 256) = n := by
  have hmod : (n % 65536 : ℤ) = if 0 ≤ n then n else n + 65536 := by
    split <;> omega
  unfold readInt16 toUint16
  have hp : (n % 65536).toNat % 256 + 256 * ((n % 65536).toNat / 256) = (n % 65536).toNat := by
    omega
  rw [hp]
  split <;> rename_i hcase <;> omega

/-- One in-range sample decodes to within one quantization step of itself. -/
lemma sample_roundtrip_close (q : ℚ) (hlo : -1 ≤ q) (hhi : q < 1) :
    |((readInt16 (toUint16 (truncToward (q * 32768)) % 256)
        (toUint16 (truncToward (q * 32768)) / 256) : ℤ) : ℚ) / 32768 - q| ≤ 1 / 32768 := by
  set x : ℚ := q * 32768 with hx
  have hxlo : -32768 ≤ x := by rw [hx]; nlinarith
  have hxhi : x < 32768 := by rw [hx]; nlinarith
  obtain ⟨hnlo, hnhi⟩ := truncToward_range x hxlo hxhi
  rw [readInt16_toUint16 _ hnlo hnhi]
  have hclose : |x - truncToward x| < 1 := truncToward_close x
  have heq : ((truncToward x : ℤ) : ℚ) / 32768 - q = (((truncToward x : ℤ) : ℚ) - x) / 32768 := by
    rw [hx]; ring
  rw [heq, abs_div, abs_of_pos (by norm_num : (0 : ℚ) < 32768)]
  rw [abs_sub_comm] at hclose
  have : |((truncToward x : ℤ) : ℚ) - x| ≤ 1 := le_of_lt hclose
  linarith

/-- C8: decoding the transport-text encoding of any byte sequence returns
exactly that sequence (`decode (encode b) = b`). -/
theorem transport_roundtrip_exact (b : List Nat) (h : ∀ x ∈ b, x < 256) :
    decode (encode b) = b :=
  decode_encode b h

/-- Witness for C8 at a concrete byte sequence. -/
theorem transport_roundtrip_exact_witness :
    (∀ x ∈ [0, 127, 255, 36, 1], x < 256) ∧
      decode (encode [0, 127, 255, 36, 1]) = [0, 127, 255, 36, 1] :=
  ⟨by decide, transport_roundtrip_exact [0, 127, 255, 36, 1] (by decide)⟩

/-- C6 (amended): for samples in `[-1, 1)` the PCM round trip (decode of the
transport text of `createBlob`, normalized by `decodeAudioData` at one
channel) recovers each sample within one quantization step `1/32768`.
(At exactly `1` the scaled value `32768` wraps to `-32768`, so the interval
is half-open; see the counterexample.) -/
theorem pcm_roundtrip_within_step (samples : List ℚ)
    (h : ∀ q ∈ samples, -1 ≤ q ∧ q < 1) :
    List.Forall₂ (fun o q => |o - q| ≤ 1 / 32768)
      (decodeAudioData (decode (createBlob samples).data) 1 0) samples := by
  have hbytes : ∀ x ∈ (samples.map sampleBytes).flatten, x < 256 := by
    intro x hx
    obtain ⟨l, hl, hxl⟩ := List.mem_flatten.mp hx
    obtain ⟨q, _, rfl⟩ := List.mem_map.mp hl
    exact sampleBytes_lt q x hxl
  rw [show (createBlob samples).data = encode (samples.map sampleBytes).flatten from rfl,
    decode_encode _ hbytes, decodeAudioData_one_channel, bytesToInt16_join, List.map_map]
  rw [List.forall₂_map_left_iff]
  rw [List.forall₂_same]
  intro q hq
  obtain ⟨hlo, hhi⟩ := h q hq
  exact sample_roundtrip_close q hlo hhi

lemma witness_samples_in_range :
    ∀ q ∈ [(0 : ℚ), 1/2, -1, -3/4], -1 ≤ q ∧ q < 1 := by
  intro q hq
  simp only [List.mem_cons, List.not_mem_nil, or_false] at hq
  rcases hq with rfl | rfl | rfl | rfl <;> constructor <;> norm_num

/-- Witness for C6 at concrete samples. -/
theorem pcm_roundtrip_within_step_witness :
    (∀ q ∈ [(0 : ℚ), 1/2, -1, -3/4], -1 ≤ q ∧ q < 1) ∧
      List.Forall₂ (fun o q => |o - q| ≤ 1 / 32768)
        (decodeAudioData (decode (createBlob [(0 : ℚ), 1/2, -1, -3/4]).data) 1 0)
        [(0 : ℚ), 1/2, -1, -3/4] :=
  ⟨witness_samples_in_range,
    pcm_roundtrip_within_step [(0 : ℚ), 1/2, -1, -3/4] witness_samples_in_range⟩

/-- C6, as stated, fails at the in-range sample `1`: scaling gives `32768`,
which wraps to `-32768` in the 16-bit store, so the decoded value is `-1`,
two whole units away from the original. -/
theorem pcm_roundtrip_cex :
    decodeAudioData (decode (createBlob [(1 : ℚ)]).data) 1 0 = [(-1 : ℚ)] ∧
      ¬ |(-1 : ℚ) - 1| ≤ 1 / 32768 := by
  constructor
  · have hbytes : ∀ x ∈ ([(1 : ℚ)].map sampleBytes).flatten, x < 256 := by
      intro x hx
      obtain ⟨l, hl, hxl⟩ := List.mem_flatten.mp hx
      obtain ⟨q, _, rfl⟩ := List.mem_map.mp hl
      exact sampleBytes_lt q x hxl
    rw [show (createBlob [(1 : ℚ)]).data = encode ([(1 : ℚ)].map sampleBytes).flatten from rfl,
      decode_encode _ hbytes, decodeAudioData_one_channel, bytesToInt16_join, List.map_map]
    have ht : truncToward ((1 : ℚ) * 32768) = 32768 := by
      rw [one_mul]
      unfold truncToward
      rw [if_pos (by norm_num)]
      norm_num
    have hu : toUint16 32768 = 32768 := by unfold toUint16; decide
    simp only [List.map_cons, List.map_nil, Function.comp_def, ht, hu]
    have hr : readInt16 (32768 % 256) (32768 / 256) = -32768 := by
      unfold readInt16; decide
    rw [hr]
    norm_num
  · norm_num

end GeminiService

namespace Storyteller

/-- `StorytellerStatus` of types.ts. -/
inductive StorytellerStatus
  | IDLE
  | LISTENING
  | THINKING
  | SPEAKING
  | ERROR
deriving DecidableEq, Repr

/-- The two speakers of a `Turn` of types.ts. -/
inductive Speaker
  | user
  | ai
deriving DecidableEq, Repr

/-- `Turn` of types.ts: one conversation-log entry. -/
structure Turn where
  speaker : Speaker
  text : String
deriving DecidableEq, Repr

/-- Lifecycle of an `AudioContext` a ref still points at: `close()` flips
it to `closed`, the ref itself is never nulled by `cleanup`. -/
inductive CtxState
  | opened
  | closed
deriving DecidableEq, Repr

/-- One entry of `message.toolCall.functionCalls`: `id`, `name` and the
`sound` argument (absent or a string; the empty string is falsy in the
`if (sound)` check). -/
structure FunctionCall where
  id : String
  name : String
  sound : Option String
deriving DecidableEq, Repr

/-- The outbound `sendToolResponse` payload: `{ functionResponses: { id,
name, response: { result } } }`. -/
structure ToolAck where
  id : String
  name : String
  result : String
deriving DecidableEq, Repr

/-- The fields of a `LiveServerMessage` that `handleMessage` reads:
`toolCall.functionCalls`, the two transcription deltas,
`serverContent.turnComplete`, the first part's inline audio `data`
(base64 text; the empty string is falsy), and `serverContent.interrupted`. -/
structure ServerMessage where
  toolCall : Option (List FunctionCall) := none
  outputTranscriptionText : Option String := none
  inputTranscriptionText : Option String := none
  turnComplete : Bool := false
  audioData : Option (List Char) := none
  interrupted : Bool := false
deriving DecidableEq, Repr

/-- The orchestrator state of useStoryteller.ts: the three `useState`
values (`status`, `conversation`, `error`) and the refs
(`sessionPromiseRef` as a presence flag, the two audio-context refs with
their open/closed state, `microphoneStreamRef`, `scriptProcessorRef`, the
two transcription accumulators, `nextStartTimeRef` and the size of
`audioSourcesRef`). -/
structure OrchestratorState where
  status : StorytellerStatus
  conversation : List Turn
  error : Option String
  sessionOpen : Bool
  inputCtx : Option CtxState
  outputCtx : Option CtxState
  micStream : Bool
  scriptProcessor : Bool
  inputAcc : String
  outputAcc : String
  nextStartTime : ℚ
  audioSources : ℕ
deriving DecidableEq, Repr

/-- The state before any session was ever started: all refs null, both
accumulators empty, cursor 0, empty playback set, status IDLE. -/
def initState : OrchestratorState :=
  { status := .IDLE, conversation := [], error := none, sessionOpen := false,
    inputCtx := none, outputCtx := none, micStream := false, scriptProcessor := false,
    inputAcc := "", outputAcc := "", nextStartTime := 0, audioSources := 0 }

/-- The user-facing error strings of useStoryteller.ts (apostrophes elided). -/
def micErrorMsg : String :=
  "Could not access microphone. Please grant permission and try again."

def setupErrorMsg : String :=
  "Something went wrong while setting up the storyteller. Please try again."

def connectErrorMsg : String :=
  "Could not connect to the storyteller. Please check your internet connection and try again."

def sessionErrorMsg : String :=
  "An error occurred with the AI storyteller. Please try again."

def processingErrorMsg : String :=
  "An error occurred while processing the AI response. Please try again."

/-- `cleanup` of useStoryteller.ts: stop and null the microphone stream,
disconnect and null the script processor, close both audio contexts (the
refs keep pointing at the closed contexts), force-stop and clear the
active sources, reset the cursor, close and null the session, set status
IDLE and clear the error.  The conversation log and the two transcription
accumulators are untouched. -/
def cleanup (s : OrchestratorState) : OrchestratorState :=
  { s with
    micStream := false
    scriptProcessor := false
    inputCtx := s.inputCtx.map (fun _ => CtxState.closed)
    outputCtx := s.outputCtx.map (fun _ => CtxState.closed)
    audioSources := 0
    nextStartTime := 0
    sessionOpen := false
    status := .IDLE
    error := none }

/-- `stopSession` of useStoryteller.ts: just `cleanup()`. -/
def stopSession (s : OrchestratorState) : OrchestratorState := cleanup s

/-- The scheduling step of the audio branch of `handleMessage`:
`nextStartTimeRef.current = max(nextStartTimeRef.current, ctx.currentTime)`,
`source.start(nextStartTimeRef.current)`,
`nextStartTimeRef.current += buffer.duration`.  Returns the assigned start
time and the advanced cursor. -/
def scheduleNext (cursor now dur : ℚ) : ℚ × ℚ :=
  let start := max cursor now
  (start, start + dur)

/-- The playback triggers of one function call: `playSound(sound, ctx)` is
invoked only when `fc.args.sound` is truthy (present and non-empty). -/
def soundArgTriggers (fc : FunctionCall) : List String :=
  match fc.sound with
  | some snd => if snd = "" then [] else [snd]
  | none => []

/-- The tool-call loop of `handleMessage`: for each function call named
`playSoundEffect` while `outputAudioContextRef.current` is non-null, it
triggers `playSound` when the sound argument is truthy, and sends the
acknowledgment through `sessionPromiseRef.current?.then` — so the
acknowledgment goes out only when the session ref is non-null. -/
def handleToolCalls (ctxPresent sessOpen : Bool) :
    List FunctionCall → List ToolAck × List String
  | [] => ([], [])
  | fc :: rest =>
    let tail := handleToolCalls ctxPresent sessOpen rest
    if fc.name = "playSoundEffect" ∧ ctxPresent then
      ((if sessOpen then [{ id := fc.id, name := fc.name, result := "ok" }] else [])
          ++ tail.1,
        soundArgTriggers fc ++ tail.2)
    else tail

/-- The transcription branch of `handleMessage`: an output delta is only
appended to the outbound accumulator; otherwise (`else if`) an input delta
is appended to the inbound accumulator and the conversation log is eagerly
created/updated in place at its last entry. -/
def handleTranscription (s : OrchestratorState) (m : ServerMessage) : OrchestratorState :=
  match m.outputTranscriptionText with
  | some t => { s with outputAcc := s.outputAcc ++ t }
  | none =>
    match m.inputTranscriptionText with
    | some t =>
      let acc := s.inputAcc ++ t
      let conv :=
        match s.conversation.getLast? with
        | some last =>
          if last.speaker = .user then
            s.conversation.dropLast ++ [{ speaker := .user, text := acc }]
          else s.conversation ++ [{ speaker := .user, text := acc }]
        | none => s.conversation ++ [{ speaker := .user, text := acc }]
      { s with inputAcc := acc, conversation := conv }
    | none => s

/-- JavaScript `String.prototype.trim`: drop leading and trailing
whitespace. -/
def trim (t : String) : String :=
  ⟨((t.data.dropWhile Char.isWhitespace).reverse.dropWhile Char.isWhitespace).reverse⟩

/-- The turn-complete branch of `handleMessage`: trim both accumulators; if
the trimmed user input is truthy and the log is non-empty and its last
entry is a user turn, overwrite that entry's text; if the trimmed AI
response is truthy, push a new AI entry; reset both accumulators and set
status LISTENING. -/
def handleTurnComplete (s : OrchestratorState) : OrchestratorState :=
  let userInput := trim s.inputAcc
  let aiResponse := trim s.outputAcc
  let conv1 :=
    if userInput ≠ "" ∧ s.conversation ≠ [] then
      match s.conversation.getLast? with
      | some last =>
        if last.speaker = .user then
          s.conversation.dropLast ++ [{ last with text := userInput }]
        else s.conversation
      | none => s.conversation
    else s.conversation
  let conv2 :=
    if aiResponse ≠ "" then conv1 ++ [{ speaker := .ai, text := aiResponse }] else conv1
  { s with conversation := conv2, inputAcc := "", outputAcc := "", status := .LISTENING }

/-- Duration of the decoded fragment: `frameCount / sampleRate` at 24000 Hz,
one channel. -/
def audioFragmentDuration (data : List Char) : ℚ :=
  GeminiService.bufferDuration (GeminiService.decode data) 24000 1

/-- The audio branch of `handleMessage`.  A truthy base64 `data` first sets
status SPEAKING; then `if (!outputAudioContext) return;` leaves the whole
handler (the returned flag records that early return, which also skips the
interrupted branch); otherwise the fragment is scheduled with
`scheduleNext` and added to the active set. -/
def handleAudio (s : OrchestratorState) (m : ServerMessage) (now : ℚ) :
    OrchestratorState × Bool :=
  match m.audioData with
  | none => (s, false)
  | some data =>
    if data = [] then (s, false)
    else
      let s1 := { s with status := .SPEAKING }
      match s1.outputCtx with
      | none => (s1, true)
      | some _ =>
        let dur := audioFragmentDuration data
        let stepped := scheduleNext s1.nextStartTime now dur
        ({ s1 with nextStartTime := stepped.2, audioSources := s1.audioSources + 1 }, false)

/-- What one run of `handleMessage` produces: the new state, the outbound
tool acknowledgments, and the `playSound` triggers. -/
structure HandleResult where
  state : OrchestratorState
  toolResponses : List ToolAck
  soundTriggers : List String
deriving DecidableEq, Repr

/-- `handleMessage` of useStoryteller.ts (the non-throwing path), with the
branches in source order: tool calls, transcription deltas, turn-complete,
audio fragment (possibly returning early), interruption. `now` is the
output clock's `currentTime` sampled by the audio branch. -/
def handleMessage (s : OrchestratorState) (m : ServerMessage) (now : ℚ) : HandleResult :=
  let callOut :=
    match m.toolCall with
    | some calls => handleToolCalls s.outputCtx.isSome s.sessionOpen calls
    | none => ([], [])
  let s1 := handleTranscription s m
  let s2 := if m.turnComplete then handleTurnComplete s1 else s1
  let afterAudio := handleAudio s2 m now
  let s4 :=
    if afterAudio.2 then afterAudio.1
    else if m.interrupted then
      { afterAudio.1 with audioSources := 0, nextStartTime := 0 }
    else afterAudio.1
  { state := s4, toolResponses := callOut.1, soundTriggers := callOut.2 }

/-- The catch block of `handleMessage`: `setError(<processing message>)`,
`setStatus(ERROR)`, then `cleanup()` — and `cleanup` in turn overwrites the
status with IDLE and the error with null.  Whatever partial mutations the
failed handling left in `s` are irrelevant to the fields `cleanup`
forces. -/
def handleMessageCatch (s : OrchestratorState) : OrchestratorState :=
  cleanup { s with error := some processingErrorMsg, status := .ERROR }

/-- A message carrying only the turn-complete flag. -/
def turnCompleteMsg : ServerMessage := { turnComplete := true }

/-- A message carrying only the interrupted flag. -/
def interruptMsg : ServerMessage := { interrupted := true }

/-- A tool-call message with a single `playSoundEffect` call. -/
def toolMsg (callId snd : String) : ServerMessage :=
  { toolCall := some [{ id := callId, name := "playSoundEffect", sound := some snd }] }

/-- A message carrying both an AI output-transcription delta and a user
input-transcription delta. -/
def bothDeltasMsg (aiText userText : String) : ServerMessage :=
  { outputTranscriptionText := some aiText, inputTranscriptionText := some userText }

lemma handleMessage_turnCompleteMsg (s : OrchestratorState) (now : ℚ) :
    (handleMessage s turnCompleteMsg now).state = handleTurnComplete s := rfl

/-- The events that drive the orchestrator at rest: the four outcomes of
`startSession` (success up to session creation; `getUserMedia` denial;
a later setup failure, e.g. in `preloadSounds`, after the microphone and
contexts were acquired; rejection of the session promise), the session
callbacks (`onopen`, `onerror`, `onclose`, a message, a message whose
handling throws — carrying whatever partial log/accumulator mutations the
failed handling left), `stopSession`, and the `ended` callback of a
scheduled source. -/
inductive Event
  | startOk
  | startFailMic
  | startFailSetup
  | connectFail
  | onOpen
  | onErrorCb
  | onCloseCb
  | stop
  | inbound (m : ServerMessage) (now : ℚ)
  | inboundThrow (conv : List Turn) (inAcc outAcc : String)
  | sourceEnded
deriving DecidableEq, Repr

/-- One event's effect on the orchestrator state, from useStoryteller.ts.
`startSession` first does `setError(null)`, then returns unless status is
IDLE or ERROR; on success it acquires the microphone and both contexts,
clears the conversation and stores the session promise (status changes
only later, in `onOpen`).  The failure variants run the catch block
(specific message, status ERROR, no cleanup).  `connectFail`, `onErrorCb`
and the throwing-message catch set an error and ERROR and then call
`cleanup`, which overwrites both.  `onOpen` starts streaming and sets
LISTENING when the input context and microphone refs are set.
`sourceEnded` deletes the source and sets LISTENING when the set is then
empty. -/
def step (s : OrchestratorState) : Event → OrchestratorState
  | .startOk =>
      if s.status = .IDLE ∨ s.status = .ERROR then
        { s with
          error := none
          micStream := true
          inputCtx := some .opened
          outputCtx := some .opened
          conversation := []
          sessionOpen := true }
      else { s with error := none }
  | .startFailMic =>
      if s.status = .IDLE ∨ s.status = .ERROR then
        { s with error := some micErrorMsg, status := .ERROR }
      else { s with error := none }
  | .startFailSetup =>
      if s.status = .IDLE ∨ s.status = .ERROR then
        { s with
          error := some setupErrorMsg
          status := .ERROR
          micStream := true
          inputCtx := some .opened
          outputCtx := some .opened }
      else { s with error := none }
  | .connectFail => cleanup { s with error := some connectErrorMsg, status := .ERROR }
  | .onOpen =>
      if s.inputCtx.isSome ∧ s.micStream then
        { s with scriptProcessor := true, status := .LISTENING }
      else s
  | .onErrorCb => cleanup { s with error := some sessionErrorMsg, status := .ERROR }
  | .onCloseCb => cleanup s
  | .stop => stopSession s
  | .inbound m now => (handleMessage s m now).state
  | .inboundThrow conv inAcc outAcc =>
      handleMessageCatch { s with conversation := conv, inputAcc := inAcc, outputAcc := outAcc }
  | .sourceEnded =>
      { s with
        audioSources := s.audioSources - 1
        status := if s.audioSources - 1 = 0 then .LISTENING else s.status }

/-- Orderliness of one event at one state: session callbacks belong to the
current session handle (they fire while the session ref is set), a start
variant is not issued while a session handle exists (no re-entrant start
during connect), and an `ended` callback fires only while its source is
still tracked. -/
def okAt (s : OrchestratorState) : Event → Bool
  | .startOk => !s.sessionOpen
  | .startFailMic => !s.sessionOpen
  | .startFailSetup => !s.sessionOpen
  | .connectFail => s.sessionOpen
  | .onOpen => s.sessionOpen
  | .onErrorCb => s.sessionOpen
  | .onCloseCb => s.sessionOpen
  | .stop => true
  | .inbound _ _ => s.sessionOpen
  | .inboundThrow _ _ _ => s.sessionOpen
  | .sourceEnded => decide (0 < s.audioSources)

/-- An orderly trace: every event is orderly at the state it fires in. -/
def orderly (s : OrchestratorState) : List Event → Bool
  | [] => true
  | e :: es => okAt s e && orderly (step s e) es

/-- Folding a sequence of completed handler runs. -/
def applyEvents (s : OrchestratorState) : List Event → OrchestratorState
  | [] => s
  | e :: es => applyEvents (step s e) es

/-- The inductive invariant behind the (amended) error/status relation. -/
def GoodState (s : OrchestratorState) : Prop :=
  (s.error ≠ none → s.status = .ERROR)
  ∧ (s.error ≠ none → s.sessionOpen = false)
  ∧ (s.sessionOpen = false → s.audioSources = 0)

lemma handleTranscription_frame (s : OrchestratorState) (m : ServerMessage) :
    (handleTranscription s m).error = s.error
      ∧ (handleTranscription s m).sessionOpen = s.sessionOpen
      ∧ (handleTranscription s m).audioSources = s.audioSources := by
  unfold handleTranscription
  split
  · exact ⟨rfl, rfl, rfl⟩
  · split
    · exact ⟨rfl, rfl, rfl⟩
    · exact ⟨rfl, rfl, rfl⟩

lemma handleAudio_frame (s : OrchestratorState) (m : ServerMessage) (now : ℚ) :
    (handleAudio s m now).1.error = s.error
      ∧ (handleAudio s m now).1.sessionOpen = s.sessionOpen := by
  unfold handleAudio
  split
  · exact ⟨rfl, rfl⟩
  · split
    · exact ⟨rfl, rfl⟩
    · dsimp only
      split
      · exact ⟨rfl, rfl⟩
      · exact ⟨rfl, rfl⟩

lemma assembleAfterAudio_frame (x : OrchestratorState) (m : ServerMessage) (now : ℚ) :
    (if (handleAudio x m now).2 then (handleAudio x m now).1
      else if m.interrupted then
        { (handleAudio x m now).1 with audioSources := 0, nextStartTime := 0 }
      else (handleAudio x m now).1).error = x.error
    ∧ (if (handleAudio x m now).2 then (handleAudio x m now).1
      else if m.interrupted then
        { (handleAudio x m now).1 with audioSources := 0, nextStartTime := 0 }
      else (handleAudio x m now).1).sessionOpen = x.sessionOpen := by
  have e3 := handleAudio_frame x m now
  constructor
  · split
    · exact e3.1
    · split
      · exact e3.1
      · exact e3.1
  · split
    · exact e3.2
    · split
      · exact e3.2
      · exact e3.2

lemma handleMessage_frame (s : OrchestratorState) (m : ServerMessage) (now : ℚ) :
    (handleMessage s m now).state.error = s.error
      ∧ (handleMessage s m now).state.sessionOpen = s.sessionOpen := by
  unfold handleMessage
  dsimp only
  have e1 := handleTranscription_frame s m
  by_cases htc : m.turnComplete = true
  · rw [if_pos htc]
    exact ⟨(assembleAfterAudio_frame (handleTurnComplete (handleTranscription s m)) m now).1.trans
        e1.1,
      (assembleAfterAudio_frame (handleTurnComplete (handleTranscription s m)) m now).2.trans
        e1.2.1⟩
  · rw [if_neg htc]
    exact ⟨(assembleAfterAudio_frame (handleTranscription s m) m now).1.trans e1.1,
      (assembleAfterAudio_frame (handleTranscription s m) m now).2.trans e1.2.1⟩

lemma step_good (s : OrchestratorState) (e : Event) (hg : GoodState s) (hok : okAt s e = true) :
    GoodState (step s e) := by
  obtain ⟨g1, g2, g3⟩ := hg
  cases e with
  | startOk =>
      have hso : s.sessionOpen = false := by simpa [okAt] using hok
      simp only [step]
      split
      · exact ⟨fun h => absurd rfl h, fun h => absurd rfl h, fun h => Bool.noConfusion h⟩
      · exact ⟨fun h => absurd rfl h, fun h => absurd rfl h, fun _ => g3 hso⟩
  | startFailMic =>
      have hso : s.sessionOpen = false := by simpa [okAt] using hok
      simp only [step]
      split
      · exact ⟨fun _ => rfl, fun _ => hso, fun _ => g3 hso⟩
      · exact ⟨fun h => absurd rfl h, fun h => absurd rfl h, fun _ => g3 hso⟩
  | startFailSetup =>
      have hso : s.sessionOpen = false := by simpa [okAt] using hok
      simp only [step]
      split
      · exact ⟨fun _ => rfl, fun _ => hso, fun _ => g3 hso⟩
      · exact ⟨fun h => absurd rfl h, fun h => absurd rfl h, fun _ => g3 hso⟩
  | connectFail =>
      exact ⟨fun h => absurd rfl h, fun h => absurd rfl h, fun _ => rfl⟩
  | onOpen =>
      have hse : s.sessionOpen = true := by simpa [okAt] using hok
      simp only [step]
      split
      · refine ⟨?_, ?_, ?_⟩ <;> intro h
        · have hc := g2 h
          rw [hse] at hc
          exact Bool.noConfusion hc
        · have hc := g2 h
          rw [hse] at hc
          exact Bool.noConfusion hc
        · replace h : s.sessionOpen = false := h
          rw [hse] at h
          exact Bool.noConfusion h
      · exact ⟨g1, g2, g3⟩
  | onErrorCb =>
      exact ⟨fun h => absurd rfl h, fun h => absurd rfl h, fun _ => rfl⟩
  | onCloseCb =>
      exact ⟨fun h => absurd rfl h, fun h => absurd rfl h, fun _ => rfl⟩
  | stop =>
      exact ⟨fun h => absurd rfl h, fun h => absurd rfl h, fun _ => rfl⟩
  | inbound m now =>
      have hse : s.sessionOpen = true := by simpa [okAt] using hok
      have hf := handleMessage_frame s m now
      refine ⟨?_, ?_, ?_⟩ <;> intro h
      · replace h : (handleMessage s m now).state.error ≠ none := h
        rw [hf.1] at h
        have hc := g2 h
        rw [hse] at hc
        exact Bool.noConfusion hc
      · replace h : (handleMessage s m now).state.error ≠ none := h
        rw [hf.1] at h
        have hc := g2 h
        rw [hse] at hc
        exact Bool.noConfusion hc
      · replace h : (handleMessage s m now).state.sessionOpen = false := h
        rw [hf.2, hse] at h
        exact Bool.noConfusion h
  | inboundThrow conv inAcc outAcc =>
      exact ⟨fun h => absurd rfl h, fun h => absurd rfl h, fun _ => rfl⟩
  | sourceEnded =>
      have hcnt : 0 < s.audioSources := by simpa [okAt] using hok
      refine ⟨?_, ?_, ?_⟩ <;> intro h
      · exact absurd hcnt (by rw [g3 (g2 h)]; simp)
      · exact g2 h
      · have h0 := g3 h
        show s.audioSources - 1 = 0
        omega

lemma applyEvents_good (es : List Event) (s : OrchestratorState) (hg : GoodState s)
    (ho : orderly s es = true) : GoodState (applyEvents s es) := by
  induction es generalizing s with
  | nil => exact hg
  | cons e es ih =>
      rw [orderly, Bool.and_eq_true] at ho
      exact ih (step s e) (step_good s e hg ho.1) ho.2

/-- C4 (amended): over orderly traces (session callbacks fire only while
the session handle is current, ended callbacks only while their source is
tracked, start is not re-entered while a handle exists), a set error
message implies status ERROR.  The converse direction of the claimed
biconditional fails: see the counterexample. -/
theorem error_implies_error_status (es : List Event) (ho : orderly initState es = true)
    (he : (applyEvents initState es).error ≠ none) :
    (applyEvents initState es).status = .ERROR := by
  have hg : GoodState initState :=
    ⟨fun h => absurd rfl h, fun h => absurd rfl h, fun _ => rfl⟩
  exact (applyEvents_good es initState hg ho).1 he

/-- Witness for C4 on the one-event trace of a denied microphone. -/
theorem error_implies_error_status_witness :
    orderly initState [Event.startFailMic] = true
    ∧ (applyEvents initState [Event.startFailMic]).error ≠ none
    ∧ (applyEvents initState [Event.startFailMic]).status = .ERROR :=
  ⟨by decide, by decide,
    error_implies_error_status [Event.startFailMic] (by decide) (by decide)⟩

/-- C4, as stated, fails: a failed start (status ERROR, message set)
followed by a successful `start()` — which clears the error first and does
not change the status until the open callback — rests at status ERROR with
a null error message.  The trace is orderly. -/
theorem error_status_iff_cex :
    orderly initState [Event.startFailMic, Event.startOk] = true
    ∧ (applyEvents initState [Event.startFailMic, Event.startOk]).status = .ERROR
    ∧ (applyEvents initState [Event.startFailMic, Event.startOk]).error = none := by
  exact ⟨by decide, by decide, by decide⟩

/-- C1 (amended): handling a turn-complete signal finalizes the last log
entry's text to the whitespace-trimmed user accumulator exactly when that
entry is a user turn and the trimmed accumulator is non-empty, appends one
AI entry exactly when the trimmed AI accumulator is non-empty, resets both
accumulators, and sets status LISTENING. -/
theorem turn_complete_finalizes (s : OrchestratorState) (now : ℚ) :
    (handleMessage s turnCompleteMsg now).state.conversation =
      (if trim s.inputAcc ≠ "" ∧ s.conversation.getLast?.map Turn.speaker = some .user then
        s.conversation.dropLast ++ [{ speaker := .user, text := trim s.inputAcc }]
      else s.conversation)
      ++ (if trim s.outputAcc ≠ "" then [{ speaker := .ai, text := trim s.outputAcc }] else [])
    ∧ (handleMessage s turnCompleteMsg now).state.inputAcc = ""
    ∧ (handleMessage s turnCompleteMsg now).state.outputAcc = ""
    ∧ (handleMessage s turnCompleteMsg now).state.status = .LISTENING := by
  refine ⟨?_, rfl, rfl, rfl⟩
  rw [handleMessage_turnCompleteMsg]
  unfold handleTurnComplete
  rcases hlast : s.conversation.getLast? with _ | ⟨spk, txt⟩
  · have hnil : s.conversation = [] := by
      cases hc : s.conversation with
      | nil => rfl
      | cons a l =>
          rw [hc] at hlast
          simp [List.getLast?_concat] at hlast
    simp [hnil]
  · have hne : s.conversation ≠ [] := by
      intro h
      rw [h] at hlast
      cases hlast
    cases spk with
    | user =>
        by_cases hu : trim s.inputAcc = "" <;> by_cases ho : trim s.outputAcc = "" <;>
          simp [hlast, hne, hu, ho]
    | ai =>
        by_cases ho : trim s.outputAcc = "" <;> simp [hlast, hne, ho]

/-- A state mid-user-turn whose accumulators carry surrounding whitespace:
the code trims before finalizing and before the truthiness checks, so the
claim as stated (raw accumulators) fails here. -/
def turnCexState : OrchestratorState :=
  { initState with
    conversation := [{ speaker := .user, text := "x" }]
    inputAcc := " hi "
    outputAcc := " " }

/-- C1, as stated, fails on whitespace: from `turnCexState` the code writes
the trimmed text "hi" (not the full accumulator " hi ") and appends no AI
entry although the AI accumulator " " is non-empty. -/
theorem turn_complete_cex :
    (handleMessage turnCexState turnCompleteMsg 0).state.conversation =
        [{ speaker := .user, text := "hi" }] ∧
      (handleMessage turnCexState turnCompleteMsg 0).state.conversation ≠
        [{ speaker := .user, text := " hi " }, { speaker := .ai, text := " " }] := by
  decide

/-- A state with a live session and an output context present. -/
def liveState : OrchestratorState :=
  { initState with
    status := .LISTENING
    sessionOpen := true
    inputCtx := some .opened
    outputCtx := some .opened
    micStream := true
    scriptProcessor := true }

/-- C2 (amended): when the output-context ref and the session ref are both
set, a `playSoundEffect` tool call with an id and a sound argument yields
exactly one acknowledgment carrying that id and result "ok", and at most
one playback trigger, and every trigger names that sound. -/
theorem tool_call_ack (s : OrchestratorState) (callId snd : String) (now : ℚ)
    (hctx : s.outputCtx.isSome = true) (hsess : s.sessionOpen = true) :
    (handleMessage s (toolMsg callId snd) now).toolResponses =
        [{ id := callId, name := "playSoundEffect", result := "ok" }]
      ∧ (handleMessage s (toolMsg callId snd) now).soundTriggers.length ≤ 1
      ∧ ∀ p ∈ (handleMessage s (toolMsg callId snd) now).soundTriggers, p = snd := by
  simp only [handleMessage, toolMsg, handleToolCalls, hctx, hsess, soundArgTriggers]
  by_cases h : snd = "" <;> simp [h]

/-- Witness for C2 from `liveState`. -/
theorem tool_call_ack_witness :
    (liveState.outputCtx.isSome = true ∧ liveState.sessionOpen = true) ∧
      ((handleMessage liveState (toolMsg "call-1" "sparkle") 0).toolResponses =
          [{ id := "call-1", name := "playSoundEffect", result := "ok" }]
        ∧ (handleMessage liveState (toolMsg "call-1" "sparkle") 0).soundTriggers.length ≤ 1
        ∧ ∀ p ∈ (handleMessage liveState (toolMsg "call-1" "sparkle") 0).soundTriggers,
            p = "sparkle") :=
  ⟨⟨rfl, rfl⟩, tool_call_ack liveState "call-1" "sparkle" 0 rfl rfl⟩

/-- C2, as stated, fails before any session exists: with a null output
context ref the branch is skipped entirely and no acknowledgment is sent
(the code also skips the acknowledgment when the session ref is null). -/
theorem tool_call_ack_cex :
    (handleMessage initState (toolMsg "call-1" "sparkle") 0).toolResponses = [] ∧
      (handleMessage initState (toolMsg "call-1" "sparkle") 0).soundTriggers = [] := by
  decide

/-- C3: what the code actually does when handling throws.  The catch sets
the processing-error message and status ERROR, but then calls `cleanup`,
which overwrites them: the handler completes with status IDLE and a null
error (the teardown itself is performed). -/
theorem processing_error_outcome (s : OrchestratorState) :
    (handleMessageCatch s).status = .IDLE
    ∧ (handleMessageCatch s).error = none
    ∧ (handleMessageCatch s).micStream = false
    ∧ (handleMessageCatch s).scriptProcessor = false
    ∧ (handleMessageCatch s).sessionOpen = false
    ∧ (handleMessageCatch s).audioSources = 0
    ∧ (handleMessageCatch s).nextStartTime = 0
    ∧ (handleMessageCatch s).inputCtx ≠ some .opened
    ∧ (handleMessageCatch s).outputCtx ≠ some .opened := by
  refine ⟨rfl, rfl, rfl, rfl, rfl, rfl, rfl, ?_, ?_⟩ <;>
    · simp only [handleMessageCatch, cleanup]
      cases s.inputCtx <;> cases s.outputCtx <;> simp

/-- C7: handling a pure interrupted signal empties the active playback set
and resets the cursor to 0, and by itself changes neither the status, the
conversation log, the accumulators, nor the error. -/
theorem interrupt_clears_playback (s : OrchestratorState) (now : ℚ) :
    (handleMessage s interruptMsg now).state.audioSources = 0
    ∧ (handleMessage s interruptMsg now).state.nextStartTime = 0
    ∧ (handleMessage s interruptMsg now).state.status = s.status
    ∧ (handleMessage s interruptMsg now).state.conversation = s.conversation
    ∧ (handleMessage s interruptMsg now).state.inputAcc = s.inputAcc
    ∧ (handleMessage s interruptMsg now).state.outputAcc = s.outputAcc
    ∧ (handleMessage s interruptMsg now).state.error = s.error := by
  exact ⟨rfl, rfl, rfl, rfl, rfl, rfl, rfl⟩

/-- C9: teardown is total and idempotent: after any `stop()` — including
from the never-started state and including a second consecutive call — the
status is IDLE, the error is null, the playback set is empty and the cursor
is 0. -/
theorem stop_idempotent_total (s : OrchestratorState) :
    (stopSession s).status = .IDLE
    ∧ (stopSession s).error = none
    ∧ (stopSession s).audioSources = 0
    ∧ (stopSession s).nextStartTime = 0
    ∧ stopSession (stopSession s) = stopSession s := by
  refine ⟨rfl, rfl, rfl, rfl, ?_⟩
  rcases s with ⟨st, conv, err, so, ic, oc, mic, sp, ia, oa, nst, srcs⟩
  cases ic <;> cases oc <;> rfl

/-- C10: a message carrying both transcription deltas takes only the
`else if` output branch: the AI text is appended to the outbound
accumulator and the user delta is discarded — inbound accumulator,
conversation log and status unchanged. -/
theorem dual_delta_keeps_ai_only (s : OrchestratorState) (aiText userText : String) (now : ℚ) :
    (handleMessage s (bothDeltasMsg aiText userText) now).state.outputAcc = s.outputAcc ++ aiText
    ∧ (handleMessage s (bothDeltasMsg aiText userText) now).state.inputAcc = s.inputAcc
    ∧ (handleMessage s (bothDeltasMsg aiText userText) now).state.conversation = s.conversation
    ∧ (handleMessage s (bothDeltasMsg aiText userText) now).state.status = s.status := by
  exact ⟨rfl, rfl, rfl, rfl⟩

/-- One recorded `scheduleNext` call: the sampled clock time, the fragment
duration, the assigned start time and the cursor after the call. -/
structure ScheduleStep where
  now : ℚ
  dur : ℚ
  start : ℚ
  cursorAfter : ℚ
deriving DecidableEq, Repr

/-- A run of consecutive `scheduleNext` calls (no intervening interruption
or teardown), fed the sampled clock time and duration of each fragment. -/
def runSchedule (cursor : ℚ) : List (ℚ × ℚ) → List ScheduleStep
  | [] => []
  | (n, d) :: rest =>
      { now := n, dur := d, start := (scheduleNext cursor n d).1,
        cursorAfter := (scheduleNext cursor n d).2 }
        :: runSchedule (scheduleNext cursor n d).2 rest

lemma runSchedule_head_start (cursor : ℚ) (calls : List (ℚ × ℚ)) :
    ∀ st ∈ (runSchedule cursor calls).head?, cursor ≤ st.start := by
  cases calls with
  | nil => intro st h; cases h
  | cons p rest =>
      intro st h
      obtain ⟨n, d⟩ := p
      simp only [runSchedule, List.head?_cons, Option.mem_def, Option.some.injEq] at h
      subst h
      exact le_max_left _ _

/-- C5: across any run of `scheduleNext` calls, each assigned start time is
at least the previous start plus the previous duration, each start is at
least the clock time sampled at that call, and after each call the cursor
equals that start plus that fragment's duration. -/
theorem schedule_monotone (cursor : ℚ) (calls : List (ℚ × ℚ)) :
    List.Chain' (fun a b => a.start + a.dur ≤ b.start) (runSchedule cursor calls)
    ∧ ∀ st ∈ runSchedule cursor calls,
        st.now ≤ st.start ∧ st.cursorAfter = st.start + st.dur := by
  induction calls generalizing cursor with
  | nil => exact ⟨List.chain'_nil, by intro st h; cases h⟩
  | cons p rest ih =>
      obtain ⟨n, d⟩ := p
      obtain ⟨ihc, ihm⟩ := ih (scheduleNext cursor n d).2
      constructor
      · rw [runSchedule, List.chain'_cons']
        refine ⟨?_, ihc⟩
        intro b hb
        have hle := runSchedule_head_start (scheduleNext cursor n d).2 rest b hb
        simpa [scheduleNext] using hle
      · intro st hst
        rcases List.mem_cons.mp hst with rfl | h
        · exact ⟨le_max_right _ _, rfl⟩
        · exact ihm st h

end Storyteller
